import Mathlib

/-!
Verification development for the FinDashGPT repository.

The repository stores timestamped observation rows in SQLite tables
(markets, economics, pe_metrics, positions, risk_measures) and retrieves
"latest row per key" snapshots via correlated subqueries of the shape

  SELECT * FROM t r WHERE timestamp = (SELECT MAX(timestamp) FROM t r2 WHERE <r2 and r share a key>)

This file embeds the tables as lists of rows, SQL `MAX` as `sqlMax`, and
each query and insert helper of `backend/database.ts` and the database
variants embedded in `backend/cron.ts` as executable Lean functions.

Modelling conventions:
* ISO-8601 timestamp strings (compared lexicographically by SQLite, which
  agrees with chronological order for this fixed format) are modelled as `Nat`.
* SQLite REAL columns are modelled as `ℚ`; JavaScript float formatting is
  approximated where it is never relied upon by any verified statement.
* The surrogate `id INTEGER PRIMARY KEY AUTOINCREMENT` column of markets,
  economics and pe_metrics plays no role in any query and is omitted from
  the row structures; list position distinguishes duplicate rows.
* `new Date().toISOString()` is modelled by a clock `times : Nat → Nat`
  giving the value returned by the k-th Date call of a run.
-/

/-- SQL aggregate `MAX` over a column: `NULL` (`none`) on the empty set. -/
def sqlMax : List Nat → Option Nat
  | [] => none
  | t :: rest =>
    match sqlMax rest with
    | none => some t
    | some m => some (max t m)

/-- Combination of two SQL maxima, used to relate `MAX` over a concatenation
to the maxima of its parts. -/
def optMax : Option Nat → Option Nat → Option Nat
  | none, y => y
  | some a, none => some a
  | some a, some b => some (max a b)

theorem sqlMax_eq_none_iff (l : List Nat) : sqlMax l = none ↔ l = [] := by
  cases l with
  | nil => simp [sqlMax]
  | cons t rest =>
    cases h : sqlMax rest <;> simp [sqlMax, h]

theorem sqlMax_le_of_mem : ∀ {l : List Nat} {a m : Nat}, a ∈ l → sqlMax l = some m → a ≤ m := by
  intro l
  induction l with
  | nil => simp
  | cons t rest ih =>
    intro a m ha hm
    rcases List.mem_cons.mp ha with rfl | ha2
    · cases hrest : sqlMax rest with
      | none => rw [sqlMax, hrest] at hm; simp at hm; omega
      | some m2 => rw [sqlMax, hrest] at hm; simp at hm; omega
    · cases hrest : sqlMax rest with
      | none =>
        rw [sqlMax_eq_none_iff] at hrest
        subst hrest; simp at ha2
      | some m2 =>
        have hle := ih ha2 hrest
        rw [sqlMax, hrest] at hm; simp at hm; omega

theorem sqlMax_mem : ∀ {l : List Nat} {m : Nat}, sqlMax l = some m → m ∈ l := by
  intro l
  induction l with
  | nil => simp [sqlMax]
  | cons t rest ih =>
    intro m hm
    cases hrest : sqlMax rest with
    | none =>
      rw [sqlMax, hrest] at hm; simp at hm
      simp [hm]
    | some m2 =>
      rw [sqlMax, hrest] at hm; simp at hm
      rcases Nat.le_total t m2 with h | h
      · rw [Nat.max_eq_right h] at hm
        exact List.mem_cons_of_mem _ (hm ▸ ih hrest)
      · rw [Nat.max_eq_left h] at hm
        simp [hm]

theorem sqlMax_eq_some_of_mem_of_le {l : List Nat} {a : Nat} (ha : a ∈ l)
    (hle : ∀ b ∈ l, b ≤ a) : sqlMax l = some a := by
  cases hm : sqlMax l with
  | none =>
    rw [sqlMax_eq_none_iff] at hm
    subst hm; simp at ha
  | some m =>
    have h1 := sqlMax_le_of_mem ha hm
    have h2 := hle m (sqlMax_mem hm)
    have : a = m := Nat.le_antisymm h1 h2
    simp [this]

theorem sqlMax_append (l1 l2 : List Nat) :
    sqlMax (l1 ++ l2) = optMax (sqlMax l1) (sqlMax l2) := by
  induction l1 with
  | nil => cases h : sqlMax l2 <;> simp [sqlMax, optMax, h]
  | cons t rest ih =>
    show sqlMax (t :: (rest ++ l2)) = _
    rw [sqlMax, ih]
    cases h1 : sqlMax rest <;> cases h2 : sqlMax l2 <;>
      simp [sqlMax, optMax, h1, h2, Nat.max_assoc]

section LatestGeneric

variable {α : Type} {κ : Type}

/-- The shared shape of every snapshot query in the repository:
keep exactly the rows whose timestamp equals the `MAX` timestamp of the rows
that share their key (`k r2 r` decides the SQL key-matching condition of the
correlated subquery). -/
def latestBy (k : α → α → Bool) (ts : α → Nat) (db : List α) : List α :=
  db.filter (fun r => sqlMax ((db.filter (fun r2 => k r2 r)).map ts) == some (ts r))

variable {k : α → α → Bool} {ts : α → Nat} {key : α → κ}

theorem mem_latestBy_iff {db : List α} {r : α} :
    r ∈ latestBy k ts db ↔
      r ∈ db ∧ sqlMax ((db.filter (fun r2 => k r2 r)).map ts) = some (ts r) := by
  simp [latestBy, List.mem_filter]

/-- If `k` decides equality of keys, then key-equal rows determine the same
partition in the correlated subquery. -/
theorem partition_eq_of_key_eq (hk : ∀ a b, k a b = true ↔ key a = key b)
    {db : List α} {r1 r2 : α} (hkey : key r1 = key r2) :
    db.filter (fun x => k x r1) = db.filter (fun x => k x r2) := by
  apply List.filter_congr
  intro x _
  have h1 := hk x r1
  have h2 := hk x r2
  rw [hkey] at h1
  cases hx1 : k x r1 <;> cases hx2 : k x r2 <;> simp_all

theorem latestBy_no_newer (hk : ∀ a b, k a b = true ↔ key a = key b)
    {db : List α} {r r2 : α} (hr : r ∈ latestBy k ts db) (hr2 : r2 ∈ db)
    (hkey : key r2 = key r) : ts r2 ≤ ts r := by
  obtain ⟨-, hmax⟩ := mem_latestBy_iff.mp hr
  exact sqlMax_le_of_mem
    (List.mem_map_of_mem ts (List.mem_filter.mpr ⟨hr2, (hk r2 r).mpr hkey⟩)) hmax

theorem latestBy_complete (hk : ∀ a b, k a b = true ↔ key a = key b)
    {db : List α} {r : α} (hr : r ∈ db)
    (hdom : ∀ b ∈ db, key b = key r → ts b ≤ ts r) : r ∈ latestBy k ts db := by
  refine mem_latestBy_iff.mpr ⟨hr, sqlMax_eq_some_of_mem_of_le
    (List.mem_map_of_mem ts (List.mem_filter.mpr ⟨hr, (hk r r).mpr rfl⟩)) ?_⟩
  intro b hb
  simp only [List.mem_map, List.mem_filter] at hb
  obtain ⟨x, ⟨hx, hkx⟩, rfl⟩ := hb
  exact hdom x hx ((hk x r).mp hkx)

theorem latestBy_ties (hk : ∀ a b, k a b = true ↔ key a = key b)
    {db : List α} {r1 r2 : α} (h1 : r1 ∈ latestBy k ts db) (h2 : r2 ∈ db)
    (hkey : key r2 = key r1) (hts : ts r2 = ts r1) : r2 ∈ latestBy k ts db := by
  obtain ⟨-, hmax⟩ := mem_latestBy_iff.mp h1
  refine mem_latestBy_iff.mpr ⟨h2, ?_⟩
  rw [partition_eq_of_key_eq hk hkey, hmax, hts]

theorem latestBy_pairwise_key (hk : ∀ a b, k a b = true ↔ key a = key b)
    {db : List α} (hdb : db.Pairwise fun a b => key a = key b → ts a ≠ ts b) :
    (latestBy k ts db).Pairwise fun a b => key a ≠ key b := by
  have hsub : (latestBy k ts db).Sublist db := List.filter_sublist _
  have hf := hdb.sublist hsub
  refine hf.imp_of_mem ?_
  intro a b ha hb hR hkey
  obtain ⟨-, hmaxa⟩ := mem_latestBy_iff.mp ha
  obtain ⟨-, hmaxb⟩ := mem_latestBy_iff.mp hb
  rw [partition_eq_of_key_eq hk hkey, hmaxb] at hmaxa
  exact hR hkey (by simpa using hmaxa.symm)

end LatestGeneric

/-! ## Data model (schemas from `backend/database.ts` and the cron.ts DB variants) -/

/-- A row of the `markets` table: category, symbol, name, value REAL, timestamp. -/
structure MarketRow where
  category : String
  symbol : String
  name : String
  value : ℚ
  timestamp : Nat
deriving DecidableEq, Repr

/-- A row of the `economics` table: indicator, country, value, release_date,
nullable period, nullable surprise, timestamp. -/
structure EconRow where
  indicator : String
  country : String
  value : ℚ
  release_date : String
  period : Option String
  surprise : Option ℚ
  timestamp : Nat
deriving DecidableEq, Repr

/-- A row of the `pe_metrics` table: metric, strategy, nullable region, value,
nullable period, timestamp. -/
structure PERow where
  metric : String
  strategy : String
  region : Option String
  value : ℚ
  period : Option String
  timestamp : Nat
deriving DecidableEq, Repr

/-- A row of the `positions` table (`id TEXT PRIMARY KEY`). `asset_class` is kept
optional: the schema of the first cron.ts DB variant leaves it nullable and the
records built by `fetchPortfolio` omit it entirely. -/
structure PositionRow where
  id : String
  name : String
  asset_class : Option String
  market_value : ℚ
  ytd_dollar : Option ℚ
  ytd_percent : Option ℚ
  irr : Option ℚ
  tvpi : Option ℚ
  nav_percent : Option ℚ
  nav_target : Option ℚ
  bucket : String
  timestamp : Nat
deriving DecidableEq, Repr

/-- A row of the `risk_measures` table. -/
structure RiskRow where
  id : String
  as_of_date : String
  bucket : String
  var_99 : Option ℚ
  stress_pl : Option ℚ
  scenario : Option String
  timestamp : Nat
deriving DecidableEq, Repr

/-- The whole database state: one table per domain. -/
structure Db where
  markets : List MarketRow
  economics : List EconRow
  pe_metrics : List PERow
  positions : List PositionRow
  risk_measures : List RiskRow
deriving DecidableEq, Repr

/-! ## Insert helpers -/

/-- database.ts `insertMarketQuote`: plain INSERT (append). -/
def insertMarketQuote (db : List MarketRow) (record : MarketRow) : List MarketRow :=
  db ++ [record]

/-- database.ts `insertEconomicRelease`: plain INSERT (append). -/
def insertEconomicRelease (db : List EconRow) (record : EconRow) : List EconRow :=
  db ++ [record]

/-- database.ts `insertPEMetric`: plain INSERT (append). -/
def insertPEMetric (db : List PERow) (record : PERow) : List PERow :=
  db ++ [record]

/-- `insertPosition` of the database.ts variant embedded in cron.ts (lines 468-499):
`INSERT ... ON CONFLICT(id) DO UPDATE SET` every payload column and the timestamp
to the incoming record's values, so a row with a conflicting id is replaced in
place and a fresh id is appended. -/
def insertPosition (db : List PositionRow) (record : PositionRow) : List PositionRow :=
  if db.any (fun p => p.id == record.id) then
    db.map (fun p => if p.id == record.id then record else p)
  else
    db ++ [record]

/-- `insertPosition` of the first cron.ts DB variant (lines 156-175): a plain INSERT
into a table whose `id` column is `TEXT PRIMARY KEY`; inserting a duplicate id
violates the uniqueness constraint, so the statement raises and writes nothing. -/
def insertPositionPlain (db : List PositionRow) (record : PositionRow) :
    Except String (List PositionRow) :=
  if db.any (fun p => p.id == record.id) then
    Except.error "UNIQUE constraint failed: positions.id"
  else
    Except.ok (db ++ [record])

/-- cron.ts `insertRiskMeasure`: plain INSERT (append). -/
def insertRiskMeasure (db : List RiskRow) (record : RiskRow) : List RiskRow :=
  db ++ [record]

/-! ## Snapshot queries -/

/-- database.ts `getLatestMarketQuotes(category?)`:
`SELECT * FROM markets m WHERE timestamp = (SELECT MAX(timestamp) FROM markets m2
WHERE m2.symbol = m.symbol)`, with ` AND category = ?` appended when a category
argument is given. -/
def getLatestMarketQuotes (db : List MarketRow) : Option String → List MarketRow
  | none => latestBy (fun m2 m => m2.symbol == m.symbol) (fun m => m.timestamp) db
  | some c => db.filter (fun m =>
      (sqlMax ((db.filter (fun m2 => m2.symbol == m.symbol)).map (fun m2 => m2.timestamp))
        == some m.timestamp) && m.category == c)

/-- `getLatestMarketQuotes(category?)` of the first cron.ts DB variant (lines 195-206):
`SELECT * FROM markets WHERE [category = ? AND] timestamp = (SELECT MAX(timestamp)
FROM markets)` — the subquery maximum ranges over the whole table, not over the
rows of the same symbol. -/
def cronGetLatestMarketQuotes (db : List MarketRow) : Option String → List MarketRow
  | none => db.filter (fun m =>
      sqlMax (db.map (fun m2 => m2.timestamp)) == some m.timestamp)
  | some c => db.filter (fun m =>
      m.category == c && (sqlMax (db.map (fun m2 => m2.timestamp)) == some m.timestamp))

/-- database.ts `getLatestEconomicReleases`:
`SELECT * FROM economics e WHERE timestamp = (SELECT MAX(timestamp) FROM economics e2
WHERE e2.indicator = e.indicator AND e2.country = e.country)`. -/
def getLatestEconomicReleases (db : List EconRow) : List EconRow :=
  latestBy (fun e2 e => e2.indicator == e.indicator && e2.country == e.country)
    (fun e => e.timestamp) db

/-- SQL condition `p2.region = p.region OR (p.region IS NULL AND p2.region IS NULL)`
under SQLite three-valued logic: equality involving NULL is not true, so two rows
match on the nullable region column iff both are NULL or both carry the same
non-NULL value. -/
def regionSqlEq : Option String → Option String → Bool
  | some a, some b => a == b
  | none, none => true
  | _, _ => false

/-- database.ts `getLatestPEMetrics`:
`SELECT * FROM pe_metrics p WHERE timestamp = (SELECT MAX(timestamp) FROM pe_metrics p2
WHERE p2.metric = p.metric AND p2.strategy = p.strategy AND
(p2.region = p.region OR (p.region IS NULL AND p2.region IS NULL)))`. -/
def getLatestPEMetrics (db : List PERow) : List PERow :=
  latestBy
    (fun p2 p => p2.metric == p.metric && p2.strategy == p.strategy
      && regionSqlEq p2.region p.region)
    (fun p => p.timestamp) db

/-- cron.ts `getLatestPositions`:
`SELECT * FROM positions p WHERE timestamp = (SELECT MAX(timestamp) FROM positions p2
WHERE p2.id = p.id)`. -/
def getLatestPositions (db : List PositionRow) : List PositionRow :=
  latestBy (fun p2 p => p2.id == p.id) (fun p => p.timestamp) db

/-- cron.ts `getRiskMeasures(as_of_date)`:
`SELECT * FROM risk_measures WHERE as_of_date = ?` (no snapshot deduplication). -/
def getRiskMeasures (db : List RiskRow) (as_of_date : String) : List RiskRow :=
  db.filter (fun r => r.as_of_date == as_of_date)

/-- server.ts `getLastUpdate`: iterates the tables `['markets', 'economics',
'pe_metrics']`, reads `SELECT MAX(timestamp) as ts` from each, and keeps the
largest non-null value seen (`if (!latest || row.ts > latest) latest = row.ts`).
The positions and risk_measures tables are not visited. `lastUpdateStep` is the
body of the loop over the three per-table maxima. -/
def lastUpdateStep (latest row : Option Nat) : Option Nat :=
  match row with
  | none => latest
  | some t =>
    match latest with
    | none => some t
    | some l => if l < t then some t else latest

def getLastUpdate (db : Db) : Option Nat :=
  [sqlMax (db.markets.map (fun m => m.timestamp)),
   sqlMax (db.economics.map (fun e => e.timestamp)),
   sqlMax (db.pe_metrics.map (fun p => p.timestamp))].foldl lastUpdateStep none

/-! ## Key-matching conditions of the four snapshot queries -/

theorem marketKey_iff : ∀ (a b : MarketRow),
    (a.symbol == b.symbol) = true ↔ a.symbol = b.symbol :=
  fun _ _ => beq_iff_eq

theorem econKey_iff : ∀ (a b : EconRow),
    (a.indicator == b.indicator && a.country == b.country) = true
      ↔ (a.indicator, a.country) = (b.indicator, b.country) := by
  intro a b
  simp [Prod.ext_iff]

theorem regionSqlEq_iff : ∀ (a b : Option String), regionSqlEq a b = true ↔ a = b := by
  intro a b
  cases a <;> cases b <;> simp [regionSqlEq]

theorem peKey_iff : ∀ (a b : PERow),
    (a.metric == b.metric && a.strategy == b.strategy && regionSqlEq a.region b.region) = true
      ↔ (a.metric, a.strategy, a.region) = (b.metric, b.strategy, b.region) := by
  intro a b
  simp [regionSqlEq_iff, Prod.ext_iff, and_assoc]

theorem posKey_iff : ∀ (a b : PositionRow), (a.id == b.id) = true ↔ a.id = b.id :=
  fun _ _ => beq_iff_eq

/-- The category branch of database.ts `getLatestMarketQuotes` is the category-less
snapshot narrowed afterwards by the equality filter on category. -/
theorem getLatestMarketQuotes_some_eq (db : List MarketRow) (c : String) :
    getLatestMarketQuotes db (some c)
      = (getLatestMarketQuotes db none).filter (fun m => m.category == c) := by
  show db.filter _ = (latestBy _ _ db).filter _
  rw [latestBy, List.filter_filter]
  exact (List.filter_congr (fun x _ => by rw [Bool.and_comm])).symm

/-! ## C1 -/

/-- C1: for every database state, every row returned by a domain snapshot query
(getLatestMarketQuotes, getLatestEconomicReleases, getLatestPEMetrics,
getLatestPositions) has no other row of the same table that shares its key
(symbol; indicator+country; metric+strategy+region with NULL-aware matching; id)
and carries a strictly greater timestamp. -/
theorem snapshot_no_strictly_newer_same_key_row :
    (∀ (db : List MarketRow) (cat : Option String), ∀ m ∈ getLatestMarketQuotes db cat,
      ∀ m2 ∈ db, m2.symbol = m.symbol → m2.timestamp ≤ m.timestamp)
    ∧ (∀ (db : List EconRow), ∀ e ∈ getLatestEconomicReleases db,
      ∀ e2 ∈ db, e2.indicator = e.indicator → e2.country = e.country →
        e2.timestamp ≤ e.timestamp)
    ∧ (∀ (db : List PERow), ∀ p ∈ getLatestPEMetrics db,
      ∀ p2 ∈ db, p2.metric = p.metric → p2.strategy = p.strategy → p2.region = p.region →
        p2.timestamp ≤ p.timestamp)
    ∧ (∀ (db : List PositionRow), ∀ q ∈ getLatestPositions db,
      ∀ q2 ∈ db, q2.id = q.id → q2.timestamp ≤ q.timestamp) := by
  refine ⟨?_, ?_, ?_, ?_⟩
  · intro db cat m hm m2 hm2 hsym
    have hm' : m ∈ getLatestMarketQuotes db none := by
      cases cat with
      | none => exact hm
      | some c =>
        rw [getLatestMarketQuotes_some_eq] at hm
        exact (List.mem_filter.mp hm).1
    simp only [getLatestMarketQuotes] at hm'
    exact latestBy_no_newer marketKey_iff hm' hm2 hsym
  · intro db e he e2 he2 hind hctry
    simp only [getLatestEconomicReleases] at he
    exact latestBy_no_newer econKey_iff he he2 (by rw [hind, hctry])
  · intro db p hp p2 hp2 hm hs hr
    simp only [getLatestPEMetrics] at hp
    exact latestBy_no_newer peKey_iff hp hp2 (by rw [hm, hs, hr])
  · intro db q hq q2 hq2 hid
    simp only [getLatestPositions] at hq
    exact latestBy_no_newer posKey_iff hq hq2 hid

/-- Witness for C1: concrete instantiations for the markets and positions queries. -/
theorem snapshot_no_strictly_newer_same_key_row_witness :
    (⟨"equities", "SPX", "a", 1, 1⟩ : MarketRow).timestamp
      ≤ (⟨"equities", "SPX", "b", 2, 2⟩ : MarketRow).timestamp
    ∧ (⟨"p1", "n", none, 1, none, none, none, none, none, none, "b", 3⟩ : PositionRow).timestamp
      ≤ (⟨"p1", "n", none, 2, none, none, none, none, none, none, "b", 4⟩ : PositionRow).timestamp := by
  constructor
  · exact snapshot_no_strictly_newer_same_key_row.1
      [⟨"equities", "SPX", "a", 1, 1⟩, ⟨"equities", "SPX", "b", 2, 2⟩] none
      ⟨"equities", "SPX", "b", 2, 2⟩ (by decide)
      ⟨"equities", "SPX", "a", 1, 1⟩ (by decide) rfl
  · exact snapshot_no_strictly_newer_same_key_row.2.2.2
      [⟨"p1", "n", none, 1, none, none, none, none, none, none, "b", 3⟩,
       ⟨"p1", "n", none, 2, none, none, none, none, none, none, "b", 4⟩]
      ⟨"p1", "n", none, 2, none, none, none, none, none, none, "b", 4⟩ (by decide)
      ⟨"p1", "n", none, 1, none, none, none, none, none, none, "b", 3⟩ (by decide) rfl

/-! ## C2 -/

/-- C2: for every domain, if no two rows sharing a key carry the same timestamp,
the snapshot query returns at most one row per distinct key; and whenever several
rows of one key share the maximum timestamp, every tied row is returned. -/
theorem snapshot_unique_keys_and_all_ties_returned :
    (∀ (db : List MarketRow) (cat : Option String),
      db.Pairwise (fun a b => a.symbol = b.symbol → a.timestamp ≠ b.timestamp) →
      (getLatestMarketQuotes db cat).Pairwise (fun a b => a.symbol ≠ b.symbol))
    ∧ (∀ (db : List MarketRow) (m1 m2 : MarketRow), m1 ∈ getLatestMarketQuotes db none →
        m2 ∈ db → m2.symbol = m1.symbol → m2.timestamp = m1.timestamp →
        m2 ∈ getLatestMarketQuotes db none)
    ∧ (∀ (db : List EconRow),
      db.Pairwise (fun a b => a.indicator = b.indicator → a.country = b.country →
        a.timestamp ≠ b.timestamp) →
      (getLatestEconomicReleases db).Pairwise
        (fun a b => a.indicator ≠ b.indicator ∨ a.country ≠ b.country))
    ∧ (∀ (db : List EconRow) (e1 e2 : EconRow), e1 ∈ getLatestEconomicReleases db →
        e2 ∈ db → e2.indicator = e1.indicator → e2.country = e1.country →
        e2.timestamp = e1.timestamp → e2 ∈ getLatestEconomicReleases db)
    ∧ (∀ (db : List PERow),
      db.Pairwise (fun a b => a.metric = b.metric → a.strategy = b.strategy →
        a.region = b.region → a.timestamp ≠ b.timestamp) →
      (getLatestPEMetrics db).Pairwise
        (fun a b => a.metric ≠ b.metric ∨ a.strategy ≠ b.strategy ∨ a.region ≠ b.region))
    ∧ (∀ (db : List PERow) (p1 p2 : PERow), p1 ∈ getLatestPEMetrics db →
        p2 ∈ db → p2.metric = p1.metric → p2.strategy = p1.strategy →
        p2.region = p1.region → p2.timestamp = p1.timestamp → p2 ∈ getLatestPEMetrics db)
    ∧ (∀ (db : List PositionRow),
      db.Pairwise (fun a b => a.id = b.id → a.timestamp ≠ b.timestamp) →
      (getLatestPositions db).Pairwise (fun a b => a.id ≠ b.id))
    ∧ (∀ (db : List PositionRow) (q1 q2 : PositionRow), q1 ∈ getLatestPositions db →
        q2 ∈ db → q2.id = q1.id → q2.timestamp = q1.timestamp →
        q2 ∈ getLatestPositions db) := by
  refine ⟨?_, ?_, ?_, ?_, ?_, ?_, ?_, ?_⟩
  · intro db cat hdb
    have base : (getLatestMarketQuotes db none).Pairwise (fun a b => a.symbol ≠ b.symbol) := by
      simp only [getLatestMarketQuotes]
      exact latestBy_pairwise_key marketKey_iff hdb
    cases cat with
    | none => exact base
    | some c =>
      rw [getLatestMarketQuotes_some_eq]
      exact base.sublist (List.filter_sublist _)
  · intro db m1 m2 h1 h2 hsym hts
    simp only [getLatestMarketQuotes] at h1 ⊢
    exact latestBy_ties marketKey_iff h1 h2 hsym hts
  · intro db hdb
    simp only [getLatestEconomicReleases]
    have base := latestBy_pairwise_key econKey_iff
      (hdb.imp (fun h hkey => by
        rw [Prod.mk.injEq] at hkey
        exact h hkey.1 hkey.2))
    exact base.imp (fun h => by
      rw [ne_eq, Prod.mk.injEq, not_and_or] at h
      exact h)
  · intro db e1 e2 h1 h2 hind hctry hts
    simp only [getLatestEconomicReleases] at h1 ⊢
    exact latestBy_ties econKey_iff h1 h2 (by rw [hind, hctry]) hts
  · intro db hdb
    simp only [getLatestPEMetrics]
    have base := latestBy_pairwise_key peKey_iff
      (hdb.imp (fun h hkey => by
        rw [Prod.mk.injEq, Prod.mk.injEq] at hkey
        exact h hkey.1 hkey.2.1 hkey.2.2))
    exact base.imp (fun h => by
      rw [ne_eq, Prod.mk.injEq, Prod.mk.injEq, not_and_or, not_and_or] at h
      exact h)
  · intro db p1 p2 h1 h2 hm hs hr hts
    simp only [getLatestPEMetrics] at h1 ⊢
    exact latestBy_ties peKey_iff h1 h2 (by rw [hm, hs, hr]) hts
  · intro db hdb
    simp only [getLatestPositions]
    exact latestBy_pairwise_key posKey_iff hdb
  · intro db q1 q2 h1 h2 hid hts
    simp only [getLatestPositions] at h1 ⊢
    exact latestBy_ties posKey_iff h1 h2 hid hts

/-- Witness for C2: with two SPX rows at distinct timestamps the snapshot keys are
unique, and with two SPX rows tied at the maximum timestamp the second tied row is
also returned. -/
theorem snapshot_unique_keys_and_all_ties_returned_witness :
    (getLatestMarketQuotes
        [⟨"equities", "SPX", "a", 1, 1⟩, ⟨"equities", "SPX", "b", 2, 2⟩] none).Pairwise
      (fun a b => a.symbol ≠ b.symbol)
    ∧ (⟨"equities", "SPX", "b", 2, 5⟩ : MarketRow)
        ∈ getLatestMarketQuotes
            [⟨"equities", "SPX", "a", 1, 5⟩, ⟨"equities", "SPX", "b", 2, 5⟩] none := by
  constructor
  · exact snapshot_unique_keys_and_all_ties_returned.1
      [⟨"equities", "SPX", "a", 1, 1⟩, ⟨"equities", "SPX", "b", 2, 2⟩] none (by decide)
  · exact snapshot_unique_keys_and_all_ties_returned.2.1
      [⟨"equities", "SPX", "a", 1, 5⟩, ⟨"equities", "SPX", "b", 2, 5⟩]
      ⟨"equities", "SPX", "a", 1, 5⟩ ⟨"equities", "SPX", "b", 2, 5⟩
      (by decide) (by decide) rfl rfl

/-! ## C5 -/

/-- C5: in database.ts getLatestMarketQuotes with a category argument the equality
filter on category is applied after latest-per-symbol selection: a quote is returned
iff its timestamp dominates every row of its symbol in the unfiltered table and its
category equals the filter value; equivalently, the filtered query equals the
unfiltered snapshot narrowed afterwards by the category filter — so the filter never
changes which row is latest for a symbol. The cron.ts variant likewise applies the
category filter after its own (global-maximum) selection. -/
theorem category_filter_applied_after_latest_selection :
    (∀ (db : List MarketRow) (c : String) (m : MarketRow),
      m ∈ getLatestMarketQuotes db (some c) ↔
        m ∈ db ∧ (∀ m2 ∈ db, m2.symbol = m.symbol → m2.timestamp ≤ m.timestamp)
          ∧ m.category = c)
    ∧ (∀ (db : List MarketRow) (c : String),
      getLatestMarketQuotes db (some c)
        = (getLatestMarketQuotes db none).filter (fun m => m.category == c))
    ∧ (∀ (db : List MarketRow) (c : String),
      cronGetLatestMarketQuotes db (some c)
        = (cronGetLatestMarketQuotes db none).filter (fun m => m.category == c)) := by
  refine ⟨?_, getLatestMarketQuotes_some_eq, ?_⟩
  · intro db c m
    rw [getLatestMarketQuotes_some_eq, List.mem_filter]
    constructor
    · rintro ⟨hm, hcat⟩
      simp only [getLatestMarketQuotes] at hm
      refine ⟨(mem_latestBy_iff.mp hm).1, ?_, by simpa using hcat⟩
      intro m2 hm2 hsym
      exact latestBy_no_newer marketKey_iff hm hm2 hsym
    · rintro ⟨hmdb, hdom, hcat⟩
      refine ⟨?_, by simpa using hcat⟩
      simp only [getLatestMarketQuotes]
      exact latestBy_complete marketKey_iff hmdb hdom
  · intro db c
    show db.filter _ = (db.filter _).filter _
    rw [List.filter_filter]

/-- Witness for C5: a concrete database on which the filtered query coincides with
filtering the unfiltered snapshot afterwards, and a concrete returned row. -/
theorem category_filter_applied_after_latest_selection_witness :
    getLatestMarketQuotes [⟨"x", "A", "a", 1, 1⟩, ⟨"y", "B", "b", 1, 2⟩] (some "x")
      = (getLatestMarketQuotes [⟨"x", "A", "a", 1, 1⟩, ⟨"y", "B", "b", 1, 2⟩] none).filter
          (fun m => m.category == "x")
    ∧ (⟨"x", "A", "a", 1, 1⟩ : MarketRow)
        ∈ getLatestMarketQuotes [⟨"x", "A", "a", 1, 1⟩, ⟨"y", "B", "b", 1, 2⟩] (some "x") := by
  constructor
  · exact category_filter_applied_after_latest_selection.2.1
      [⟨"x", "A", "a", 1, 1⟩, ⟨"y", "B", "b", 1, 2⟩] "x"
  · exact (category_filter_applied_after_latest_selection.1
      [⟨"x", "A", "a", 1, 1⟩, ⟨"y", "B", "b", 1, 2⟩] "x" ⟨"x", "A", "a", 1, 1⟩).mpr
      ⟨by decide, by decide, rfl⟩

/-! ## C6 -/

/-- C6: getLatestPEMetrics groups two pe_metrics rows iff their metric and strategy
agree and their regions are both NULL or both the same non-NULL value; NULL is never
a wildcard, so a NULL region never matches region Global, and a newer Global row does
not supersede a NULL-region row. -/
theorem pe_region_null_key_matching :
    (∀ (p2 p : PERow),
      (p2.metric == p.metric && p2.strategy == p.strategy
        && regionSqlEq p2.region p.region) = true
        ↔ p2.metric = p.metric ∧ p2.strategy = p.strategy ∧
          ((p2.region = none ∧ p.region = none)
            ∨ ∃ v, p2.region = some v ∧ p.region = some v))
    ∧ regionSqlEq none (some "Global") = false
    ∧ getLatestPEMetrics
        [⟨"M", "S", none, 1, none, 1⟩, ⟨"M", "S", some "Global", 2, none, 2⟩]
        = [⟨"M", "S", none, 1, none, 1⟩, ⟨"M", "S", some "Global", 2, none, 2⟩] := by
  refine ⟨?_, rfl, by decide⟩
  intro p2 p
  cases h2 : p2.region <;> cases h : p.region <;> simp [regionSqlEq, and_assoc]
  intro _ _
  exact eq_comm

/-- Witness for C6: the key condition evaluates to true on two rows that agree on
metric and strategy and both have NULL regions. -/
theorem pe_region_null_key_matching_witness :
    ((⟨"M", "S", none, 1, none, 1⟩ : PERow).metric
        == (⟨"M", "S", none, 2, none, 2⟩ : PERow).metric
      && (⟨"M", "S", none, 1, none, 1⟩ : PERow).strategy
        == (⟨"M", "S", none, 2, none, 2⟩ : PERow).strategy
      && regionSqlEq (⟨"M", "S", none, 1, none, 1⟩ : PERow).region
          (⟨"M", "S", none, 2, none, 2⟩ : PERow).region) = true :=
  (pe_region_null_key_matching.1 ⟨"M", "S", none, 1, none, 1⟩ ⟨"M", "S", none, 2, none, 2⟩).mpr
    ⟨rfl, rfl, Or.inl ⟨rfl, rfl⟩⟩

/-! ## C8 -/

/-- C8 counterexample: against a table whose SPX row has timestamp 5, inserting an SPX
record with older timestamp 3 and value 2 and then querying the snapshot returns only
the pre-existing row — no returned row reflects the just-inserted payload. -/
theorem stale_insert_not_returned :
    getLatestMarketQuotes
        (insertMarketQuote [⟨"equities", "SPX", "old", 1, 5⟩] ⟨"equities", "SPX", "new", 2, 3⟩)
        none
      = [⟨"equities", "SPX", "old", 1, 5⟩] := by
  decide

/-- C8 amended: read-your-writes holds whenever the inserted record's timestamp is at
least every existing timestamp of its symbol (as it is when the timestamp comes from
the ingestion clock): after insertMarketQuote, getLatestMarketQuotes returns the
just-inserted row itself. -/
theorem insert_then_snapshot_returns_inserted_row :
    ∀ (db : List MarketRow) (r : MarketRow),
      (∀ m2 ∈ db, m2.symbol = r.symbol → m2.timestamp ≤ r.timestamp) →
      r ∈ getLatestMarketQuotes (insertMarketQuote db r) none := by
  intro db r hfresh
  simp only [getLatestMarketQuotes, insertMarketQuote]
  apply latestBy_complete marketKey_iff (by simp)
  intro b hb hsym
  rcases List.mem_append.mp hb with h | h
  · exact hfresh b h hsym
  · simp only [List.mem_singleton] at h
    subst h
    exact Nat.le_refl _

/-- Witness for C8: inserting a fresh-timestamp SPX record on top of an older SPX row
makes the snapshot return the new record. -/
theorem insert_then_snapshot_returns_inserted_row_witness :
    (⟨"equities", "SPX", "new", 2, 6⟩ : MarketRow)
      ∈ getLatestMarketQuotes
          (insertMarketQuote [⟨"equities", "SPX", "old", 1, 5⟩]
            ⟨"equities", "SPX", "new", 2, 6⟩) none :=
  insert_then_snapshot_returns_inserted_row
    [⟨"equities", "SPX", "old", 1, 5⟩] ⟨"equities", "SPX", "new", 2, 6⟩ (by decide)

/-! ## C10 -/

/-- C10 counterexample: on a table with two symbols whose latest rows carry different
timestamps, the database.ts query returns the latest row of each symbol while the
cron.ts variant returns only the row at the global maximum timestamp. -/
theorem cron_market_query_differs :
    getLatestMarketQuotes [⟨"x", "A", "a", 1, 1⟩, ⟨"x", "B", "b", 1, 2⟩] none
      ≠ cronGetLatestMarketQuotes [⟨"x", "A", "a", 1, 1⟩, ⟨"x", "B", "b", 1, 2⟩] none := by
  decide

/-- C10 amended: for every database state and filter the cron.ts variant returns a
subset of the database.ts variant — a row at the global maximum timestamp is also
latest for its symbol — and the two return identical result sets whenever all rows
share one timestamp (as after a single ingestion batch into an empty store); in
general they differ. -/
theorem cron_market_query_subset_and_uniform_agreement :
    (∀ (db : List MarketRow) (cat : Option String) (m : MarketRow),
      m ∈ cronGetLatestMarketQuotes db cat → m ∈ getLatestMarketQuotes db cat)
    ∧ (∀ (db : List MarketRow) (cat : Option String) (t : Nat),
      (∀ m ∈ db, m.timestamp = t) →
      cronGetLatestMarketQuotes db cat = getLatestMarketQuotes db cat) := by
  constructor
  · intro db cat m hm
    cases cat with
    | none =>
      simp only [cronGetLatestMarketQuotes, List.mem_filter, beq_iff_eq] at hm
      obtain ⟨hmdb, hglob⟩ := hm
      simp only [getLatestMarketQuotes]
      apply latestBy_complete marketKey_iff hmdb
      intro b hb _
      exact sqlMax_le_of_mem (List.mem_map_of_mem _ hb) hglob
    | some c =>
      simp only [cronGetLatestMarketQuotes, List.mem_filter, Bool.and_eq_true,
        beq_iff_eq] at hm
      obtain ⟨hmdb0, hcat, hglob⟩ := hm
      rw [getLatestMarketQuotes_some_eq, List.mem_filter]
      refine ⟨?_, by simp [hcat]⟩
      simp only [getLatestMarketQuotes]
      apply latestBy_complete marketKey_iff hmdb0
      intro b hb _
      exact sqlMax_le_of_mem (List.mem_map_of_mem _ hb) hglob
  · intro db cat t ht
    have hglob : ∀ m ∈ db,
        (sqlMax (db.map (fun m2 => m2.timestamp)) == some m.timestamp) = true := by
      intro m hm
      rw [beq_iff_eq, ht m hm]
      refine sqlMax_eq_some_of_mem_of_le ?_ ?_
      · simpa [ht m hm] using List.mem_map_of_mem (fun m2 : MarketRow => m2.timestamp) hm
      · intro b hb
        simp only [List.mem_map] at hb
        obtain ⟨x, hx, rfl⟩ := hb
        exact Nat.le_of_eq (ht x hx)
    have hpart : ∀ m ∈ db,
        (sqlMax ((db.filter (fun m2 => m2.symbol == m.symbol)).map
          (fun m2 => m2.timestamp)) == some m.timestamp) = true := by
      intro m hm
      rw [beq_iff_eq, ht m hm]
      refine sqlMax_eq_some_of_mem_of_le ?_ ?_
      · have hmem : m ∈ db.filter (fun m2 => m2.symbol == m.symbol) :=
          List.mem_filter.mpr ⟨hm, by simp⟩
        simpa [ht m hm] using
          List.mem_map_of_mem (fun m2 : MarketRow => m2.timestamp) hmem
      · intro b hb
        simp only [List.mem_map, List.mem_filter] at hb
        obtain ⟨x, ⟨hx, -⟩, rfl⟩ := hb
        exact Nat.le_of_eq (ht x hx)
    cases cat with
    | none =>
      show db.filter _ = latestBy _ _ db
      rw [latestBy]
      exact List.filter_congr (fun m hm => by rw [hglob m hm, hpart m hm])
    | some c =>
      show db.filter _ = db.filter _
      exact List.filter_congr (fun m hm => by simp [hglob m hm, hpart m hm])

/-- Witness for C10: the subset direction at a two-symbol table with distinct
timestamps, and exact agreement on a table whose rows share one timestamp. -/
theorem cron_market_query_subset_and_uniform_agreement_witness :
    (⟨"x", "B", "b", 1, 2⟩ : MarketRow)
      ∈ getLatestMarketQuotes [⟨"x", "A", "a", 1, 1⟩, ⟨"x", "B", "b", 1, 2⟩] none
    ∧ cronGetLatestMarketQuotes [⟨"x", "A", "a", 1, 3⟩, ⟨"x", "B", "b", 1, 3⟩] none
        = getLatestMarketQuotes [⟨"x", "A", "a", 1, 3⟩, ⟨"x", "B", "b", 1, 3⟩] none := by
  constructor
  · exact cron_market_query_subset_and_uniform_agreement.1
      [⟨"x", "A", "a", 1, 1⟩, ⟨"x", "B", "b", 1, 2⟩] none ⟨"x", "B", "b", 1, 2⟩ (by decide)
  · exact cron_market_query_subset_and_uniform_agreement.2
      [⟨"x", "A", "a", 1, 3⟩, ⟨"x", "B", "b", 1, 3⟩] none 3 (by decide)

/-! ## C3 -/

/-- In the upsert case the ids of the table are unchanged: every conflicting row is
replaced by the incoming record, which carries the same id. -/
theorem insertPosition_map_id_any_true {tbl : List PositionRow} {r : PositionRow}
    (h : tbl.any (fun p => p.id == r.id) = true) :
    (insertPosition tbl r).map (fun p => p.id) = tbl.map (fun p => p.id) := by
  rw [insertPosition, if_pos h, List.map_map]
  apply List.map_congr_left
  intro p _
  by_cases hid : p.id = r.id
  · simp [Function.comp, hid]
  · simp [Function.comp, hid]

/-- insertPosition (upsert) preserves distinctness of the id column. -/
theorem insertPosition_ids_nodup {tbl : List PositionRow}
    (htbl : (tbl.map (fun p => p.id)).Nodup) (r : PositionRow) :
    ((insertPosition tbl r).map (fun p => p.id)).Nodup := by
  cases hany : tbl.any (fun p => p.id == r.id) with
  | true => rw [insertPosition_map_id_any_true hany]; exact htbl
  | false =>
    rw [insertPosition, if_neg (by simp [hany]), List.map_append, List.nodup_append]
    refine ⟨htbl, List.nodup_singleton _, ?_⟩
    intro a ha hb
    simp only [List.map_cons, List.map_nil, List.mem_singleton] at hb
    subst hb
    simp only [List.mem_map] at ha
    obtain ⟨q, hq, hqid⟩ := ha
    have hno : ¬ (tbl.any (fun p => p.id == r.id) = true) := by simp [hany]
    exact hno (List.any_eq_true.mpr ⟨q, hq, by simp [hqid]⟩)

/-- Folding insertPosition (upsert) over any record sequence preserves distinct ids. -/
theorem foldl_insertPosition_ids_nodup (rs : List PositionRow) :
    ∀ (tbl : List PositionRow), (tbl.map (fun p => p.id)).Nodup →
      ((rs.foldl insertPosition tbl).map (fun p => p.id)).Nodup := by
  induction rs with
  | nil => intro tbl h; exact h
  | cons r rest ih =>
    intro tbl h
    exact ih _ (insertPosition_ids_nodup h r)

/-- C3 counterexample: under the plain-INSERT insertPosition of the first cron.ts DB
variant, whose positions table declares `id TEXT PRIMARY KEY`, inserting a record
with an existing id does not replace the row's payload and timestamp — the statement
is rejected by the uniqueness constraint. -/
theorem insertPositionPlain_does_not_replace :
    insertPositionPlain
        [⟨"p1", "old", none, 1, none, none, none, none, none, none, "b", 1⟩]
        ⟨"p1", "new", none, 2, none, none, none, none, none, none, "b", 2⟩
      = Except.error "UNIQUE constraint failed: positions.id" := by
  rfl

/-- C3 amended: the upsert insertPosition (ON CONFLICT(id) DO UPDATE, cron.ts
lines 468-499) replaces the conflicting row's payload and timestamp in place and
leaves every other row and the table length unchanged; the plain-INSERT variant
(cron.ts lines 156-175) instead rejects a duplicate id with a uniqueness-constraint
error; and any sequence of upsert calls starting from an empty table keeps the ids
distinct, so getLatestPositions never contains two rows with the same id. -/
theorem insertPosition_upsert_replaces_and_ids_unique :
    (∀ (tbl : List PositionRow) (r : PositionRow), (∃ q ∈ tbl, q.id = r.id) →
      (∀ p ∈ insertPosition tbl r, (p.id = r.id → p = r) ∧ (p.id ≠ r.id → p ∈ tbl))
        ∧ (insertPosition tbl r).length = tbl.length)
    ∧ (∀ (tbl : List PositionRow) (r : PositionRow), (∃ q ∈ tbl, q.id = r.id) →
      insertPositionPlain tbl r = Except.error "UNIQUE constraint failed: positions.id")
    ∧ (∀ rs : List PositionRow,
      ((rs.foldl insertPosition []).map (fun p => p.id)).Nodup
      ∧ (getLatestPositions (rs.foldl insertPosition [])).Pairwise
          (fun a b => a.id ≠ b.id)) := by
  refine ⟨?_, ?_, ?_⟩
  · intro tbl r hex
    have hany : tbl.any (fun p => p.id == r.id) = true := by
      obtain ⟨q, hq, hid⟩ := hex
      exact List.any_eq_true.mpr ⟨q, hq, by simp [hid]⟩
    constructor
    · intro p hp
      rw [insertPosition, if_pos hany] at hp
      simp only [List.mem_map] at hp
      obtain ⟨q, hq, hqe⟩ := hp
      by_cases h : q.id = r.id
      · rw [if_pos (by simp [h])] at hqe
        subst hqe
        exact ⟨fun _ => rfl, fun hne => absurd rfl hne⟩
      · rw [if_neg (by simp [h])] at hqe
        subst hqe
        exact ⟨fun heq => absurd heq h, fun _ => hq⟩
    · rw [insertPosition, if_pos hany, List.length_map]
  · intro tbl r hex
    have hany : tbl.any (fun p => p.id == r.id) = true := by
      obtain ⟨q, hq, hid⟩ := hex
      exact List.any_eq_true.mpr ⟨q, hq, by simp [hid]⟩
    rw [insertPositionPlain, if_pos hany]
  · intro rs
    have h1 := foldl_insertPosition_ids_nodup rs [] (by simp)
    have hpair : (rs.foldl insertPosition []).Pairwise (fun a b => a.id ≠ b.id) :=
      List.pairwise_map.mp h1
    refine ⟨h1, ?_⟩
    simp only [getLatestPositions]
    exact hpair.sublist (List.filter_sublist _)

/-- Witness for C3: upserting onto an existing id keeps the table length, the plain
INSERT of the same duplicate id errors, and a two-record fold has distinct ids. -/
theorem insertPosition_upsert_replaces_and_ids_unique_witness :
    (insertPosition [⟨"p1", "old", none, 1, none, none, none, none, none, none, "b", 1⟩]
        ⟨"p1", "new", none, 2, none, none, none, none, none, none, "b", 2⟩).length = 1
    ∧ insertPositionPlain [⟨"p1", "old", none, 1, none, none, none, none, none, none, "b", 1⟩]
        ⟨"p1", "new", none, 2, none, none, none, none, none, none, "b", 2⟩
      = Except.error "UNIQUE constraint failed: positions.id"
    ∧ (([(⟨"a", "n", none, 1, none, none, none, none, none, none, "b", 1⟩ : PositionRow),
         ⟨"b", "n", none, 1, none, none, none, none, none, none, "b", 1⟩].foldl
          insertPosition []).map (fun p => p.id)).Nodup := by
  refine ⟨?_, ?_, ?_⟩
  · exact (insertPosition_upsert_replaces_and_ids_unique.1
      [⟨"p1", "old", none, 1, none, none, none, none, none, none, "b", 1⟩]
      ⟨"p1", "new", none, 2, none, none, none, none, none, none, "b", 2⟩
      ⟨⟨"p1", "old", none, 1, none, none, none, none, none, none, "b", 1⟩,
        by decide, rfl⟩).2
  · exact insertPosition_upsert_replaces_and_ids_unique.2.1
      [⟨"p1", "old", none, 1, none, none, none, none, none, none, "b", 1⟩]
      ⟨"p1", "new", none, 2, none, none, none, none, none, none, "b", 2⟩
      ⟨⟨"p1", "old", none, 1, none, none, none, none, none, none, "b", 1⟩,
        by decide, rfl⟩
  · exact (insertPosition_upsert_replaces_and_ids_unique.2.2
      [⟨"a", "n", none, 1, none, none, none, none, none, none, "b", 1⟩,
       ⟨"b", "n", none, 1, none, none, none, none, none, none, "b", 1⟩]).1

/-! ## C7 -/

/-- C7 counterexample: on a database whose only row lives in the positions table,
getLastUpdate returns NULL, although the maximum timestamp across the latest rows of
all five domains is 5 — so lastUpdate is neither that maximum nor non-null. -/
theorem getLastUpdate_null_despite_position :
    getLastUpdate
        ⟨[], [], [],
          [⟨"p1", "n", none, 1, none, none, none, none, none, none, "b", 5⟩], []⟩
      = none
    ∧ sqlMax
        (([] : List MarketRow).map (fun m => m.timestamp)
          ++ ([] : List EconRow).map (fun e => e.timestamp)
          ++ ([] : List PERow).map (fun p => p.timestamp)
          ++ ([(⟨"p1", "n", none, 1, none, none, none, none, none, none, "b", 5⟩ :
                PositionRow)]).map (fun q => q.timestamp)
          ++ ([] : List RiskRow).map (fun r => r.timestamp))
      = some 5 :=
  ⟨rfl, rfl⟩

/-- C7 amended: the lastUpdate value served with every endpoint equals the maximum
timestamp over the markets, economics and pe_metrics tables only, and is NULL exactly
when those three tables are empty; the positions and risk_measures tables are never
consulted, so their contents cannot change the value. -/
theorem getLastUpdate_eq_max_of_three_tables :
    (∀ db : Db,
      getLastUpdate db
        = sqlMax (db.markets.map (fun m => m.timestamp)
            ++ db.economics.map (fun e => e.timestamp)
            ++ db.pe_metrics.map (fun p => p.timestamp)))
    ∧ (∀ (db : Db) (pos : List PositionRow) (rm : List RiskRow),
      getLastUpdate { db with positions := pos, risk_measures := rm }
        = getLastUpdate db) := by
  have hstep : ∀ x y : Option Nat, lastUpdateStep x y = optMax x y := by
    intro x y
    cases x <;> cases y <;> simp only [lastUpdateStep, optMax]
    rw [Nat.max_def]
    split_ifs <;> first | rfl | (congr 1; omega)
  constructor
  · intro db
    rw [getLastUpdate, sqlMax_append, sqlMax_append]
    show lastUpdateStep (lastUpdateStep (lastUpdateStep none _) _) _ = _
    rw [hstep, hstep, hstep]
    cases h1 : sqlMax (db.markets.map (fun m => m.timestamp)) <;>
    cases h2 : sqlMax (db.economics.map (fun e => e.timestamp)) <;>
    cases h3 : sqlMax (db.pe_metrics.map (fun p => p.timestamp)) <;>
      simp [optMax]
  · intro db pos rm
    rfl

/-- Witness for C7 amended: a concrete database with one market row and one position
row on which getLastUpdate equals the three-table maximum and ignores positions. -/
theorem getLastUpdate_eq_max_of_three_tables_witness :
    getLastUpdate
        ⟨[⟨"x", "A", "a", 1, 2⟩], [], [],
          [⟨"p1", "n", none, 1, none, none, none, none, none, none, "b", 9⟩], []⟩
      = sqlMax (([⟨"x", "A", "a", 1, 2⟩] : List MarketRow).map (fun m => m.timestamp)
          ++ ([] : List EconRow).map (fun e => e.timestamp)
          ++ ([] : List PERow).map (fun p => p.timestamp))
    ∧ getLastUpdate
        ⟨[⟨"x", "A", "a", 1, 2⟩], [], [],
          [⟨"p1", "n", none, 1, none, none, none, none, none, none, "b", 9⟩], []⟩
      = getLastUpdate ⟨[⟨"x", "A", "a", 1, 2⟩], [], [], [], []⟩ := by
  constructor
  · exact getLastUpdate_eq_max_of_three_tables.1
      ⟨[⟨"x", "A", "a", 1, 2⟩], [], [],
        [⟨"p1", "n", none, 1, none, none, none, none, none, none, "b", 9⟩], []⟩
  · exact getLastUpdate_eq_max_of_three_tables.2
      ⟨[⟨"x", "A", "a", 1, 2⟩], [], [], [], []⟩
      [⟨"p1", "n", none, 1, none, none, none, none, none, none, "b", 9⟩] []

/-! ## Ingestors (backend/data/fetch*.ts) -/

/-- One entry of the static `sampleData` list in fetchMarkets.ts. -/
structure MarketPayload where
  category : String
  symbol : String
  name : String
  value : ℚ
deriving DecidableEq, Repr

/-- The static `sampleData` list of fetchMarkets.ts. -/
def marketsSampleData : List MarketPayload :=
  [⟨"equities", "SPX", "S&P 500", 4500.25⟩,
   ⟨"equities", "NDX", "Nasdaq 100", 15400.85⟩,
   ⟨"equities", "SX5E", "EURO STOXX 50", 4200.55⟩,
   ⟨"equities", "NKY", "Nikkei 225", 33000.75⟩,
   ⟨"rates", "US2Y", "UST 2yr", 4.50⟩,
   ⟨"rates", "US10Y", "UST 10yr", 4.20⟩,
   ⟨"rates", "US30Y", "UST 30yr", 4.10⟩,
   ⟨"rates", "DE10Y", "German Bund 10yr", 2.55⟩,
   ⟨"rates", "IGSpread", "IG Credit Spread", 1.25⟩,
   ⟨"rates", "HYSpread", "HY Credit Spread", 4.75⟩,
   ⟨"commodities", "Brent", "Brent Crude", 85.50⟩,
   ⟨"commodities", "WTI", "WTI Crude", 81.30⟩,
   ⟨"commodities", "Gold", "Gold", 1950.00⟩,
   ⟨"commodities", "Copper", "Copper", 4.50⟩,
   ⟨"fx", "DXY", "US Dollar Index", 102.50⟩,
   ⟨"fx", "EURUSD", "EUR/USD", 1.10⟩,
   ⟨"fx", "JPYUSD", "USD/JPY", 145.50⟩,
   ⟨"fx", "GBPUSD", "GBP/USD", 1.29⟩,
   ⟨"fx", "AUDUSD", "AUD/USD", 0.67⟩,
   ⟨"crypto", "BTCUSD", "Bitcoin", 58000.00⟩,
   ⟨"crypto", "ETHUSD", "Ethereum", 3800.00⟩]

/-- fetchMarkets.ts: captures `now = new Date().toISOString()` once, then inserts
every sample record stamped with that one timestamp. -/
def fetchMarkets (times : Nat → Nat) (db : List MarketRow) : List MarketRow :=
  let now := times 0
  marketsSampleData.foldl
    (fun t rec => insertMarketQuote t ⟨rec.category, rec.symbol, rec.name, rec.value, now⟩)
    db

/-- One entry of the static `data` list in fetchEconomic.ts. -/
structure EconPayload where
  indicator : String
  country : String
  value : ℚ
  release_date : String
  period : String
  surprise : Option ℚ
deriving DecidableEq, Repr

/-- The static `data` list of fetchEconomic.ts (`surprise: null` stored as NULL). -/
def econSampleData : List EconPayload :=
  [⟨"CPI", "US", 3.1, "2025-07-31", "Jun 2025", some (-0.1)⟩,
   ⟨"PPI", "US", 2.5, "2025-07-31", "Jun 2025", some 0.2⟩,
   ⟨"Payrolls", "US", 230.0, "2025-07-05", "Jun 2025", some (-10.0)⟩,
   ⟨"PMI", "US", 50.1, "2025-07-25", "Jul 2025", some (-1.5)⟩,
   ⟨"Retail Sales", "US", 0.5, "2025-07-15", "Jun 2025", some 0.1⟩,
   ⟨"CPI", "EZ", 2.8, "2025-07-31", "Jun 2025", some 0.0⟩,
   ⟨"PPI", "EZ", 1.9, "2025-07-31", "Jun 2025", some (-0.3)⟩,
   ⟨"Payrolls", "EZ", 150.0, "2025-07-05", "Jun 2025", some 5.0⟩,
   ⟨"PMI", "EZ", 49.0, "2025-07-25", "Jul 2025", some (-0.8)⟩,
   ⟨"Retail Sales", "EZ", 0.2, "2025-07-15", "Jun 2025", some (-0.1)⟩,
   ⟨"CPI", "CN", 1.2, "2025-07-31", "Jun 2025", some 0.1⟩,
   ⟨"PPI", "CN", -2.0, "2025-07-31", "Jun 2025", some (-0.2)⟩,
   ⟨"Payrolls", "CN", 70.0, "2025-07-05", "Jun 2025", some (-3.0)⟩,
   ⟨"PMI", "CN", 51.0, "2025-07-25", "Jul 2025", some 0.5⟩,
   ⟨"Retail Sales", "CN", 3.5, "2025-07-15", "Jun 2025", some 0.3⟩,
   ⟨"CESI", "US", -20.0, "2025-08-05", "Aug 2025", none⟩,
   ⟨"CESI", "EZ", -5.0, "2025-08-05", "Aug 2025", none⟩,
   ⟨"CESI", "CN", 15.0, "2025-08-05", "Aug 2025", none⟩,
   ⟨"RecessionProb", "US", 0.25, "2025-08-05", "next 12m", none⟩]

/-- fetchEconomic.ts: captures `now` once, then inserts every hard-coded release
stamped with that one timestamp. -/
def fetchEconomic (times : Nat → Nat) (db : List EconRow) : List EconRow :=
  let now := times 0
  econSampleData.foldl
    (fun t row => insertEconomicRelease t
      ⟨row.indicator, row.country, row.value, row.release_date, some row.period,
        row.surprise, now⟩)
    db

/-- One entry of the static `metrics` list in fetchPrivateEquity.ts. -/
structure PEStrategyMetrics where
  strategy : String
  capitalRaised : ℚ
  dryPowder : ℚ
  dealCount : ℚ
  medianPPM_NA : ℚ
  medianPPM_EU : ℚ
  leverageMultiple_NA : ℚ
  leverageMultiple_EU : ℚ
  ilpaScore : ℚ
deriving DecidableEq, Repr

/-- The static `metrics` list of fetchPrivateEquity.ts. -/
def peSampleMetrics : List PEStrategyMetrics :=
  [⟨"Buyout", 25.0, 150.0, 120, 11.0, 10.5, 6.0, 5.5, 85⟩,
   ⟨"Growth", 10.0, 60.0, 90, 9.0, 8.5, 4.5, 4.2, 80⟩,
   ⟨"Venture", 15.0, 70.0, 300, 12.0, 11.0, 0.0, 0.0, 75⟩,
   ⟨"Distressed", 5.0, 40.0, 30, 7.0, 6.5, 3.5, 3.0, 70⟩,
   ⟨"Infrastructure", 8.0, 50.0, 40, 10.0, 9.5, 5.0, 4.8, 78⟩,
   ⟨"Real Estate", 12.0, 65.0, 70, 8.5, 8.0, 5.5, 5.0, 82⟩]

/-- One entry of the static `leagueTable` list in fetchPrivateEquity.ts. -/
structure LeagueEntry where
  rank : Nat
  name : String
  commitments : ℚ
deriving DecidableEq, Repr

/-- The static `leagueTable` list of fetchPrivateEquity.ts. -/
def peLeagueTable : List LeagueEntry :=
  [⟨1, "GP Alpha", 15.0⟩, ⟨2, "GP Beta", 12.0⟩, ⟨3, "GP Gamma", 10.0⟩,
   ⟨4, "GP Delta", 8.0⟩, ⟨5, "GP Epsilon", 7.0⟩, ⟨6, "GP Zeta", 6.5⟩,
   ⟨7, "GP Eta", 6.0⟩, ⟨8, "GP Theta", 5.5⟩, ⟨9, "GP Iota", 5.0⟩,
   ⟨10, "GP Kappa", 4.8⟩]

/-- fetchPrivateEquity.ts: captures `now` once; for each strategy inserts the eight
metric rows, then inserts the ten league-table rows, all stamped with that one
timestamp. -/
def fetchPrivateEquity (times : Nat → Nat) (db : List PERow) : List PERow :=
  let now := times 0
  let afterMetrics :=
    peSampleMetrics.foldl
      (fun t row =>
        ([⟨"Capital Raised", row.strategy, some "Global", row.capitalRaised,
            some "Q2 2025", now⟩,
          ⟨"Dry Powder", row.strategy, some "Global", row.dryPowder, some "Q2 2025", now⟩,
          ⟨"Deal Count", row.strategy, some "Global", row.dealCount, some "Q2 2025", now⟩,
          ⟨"Median Purchase Price Multiple", row.strategy, some "North America",
            row.medianPPM_NA, some "Q2 2025", now⟩,
          ⟨"Median Purchase Price Multiple", row.strategy, some "Europe",
            row.medianPPM_EU, some "Q2 2025", now⟩,
          ⟨"Leverage Multiple", row.strategy, some "North America",
            row.leverageMultiple_NA, some "Q2 2025", now⟩,
          ⟨"Leverage Multiple", row.strategy, some "Europe",
            row.leverageMultiple_EU, some "Q2 2025", now⟩,
          ⟨"ILPA Score", row.strategy, some "Global", row.ilpaScore, some "2025", now⟩]
          : List PERow).foldl insertPEMetric t)
      db
  peLeagueTable.foldl
    (fun t entry => insertPEMetric t
      ⟨"League Table Rank " ++ toString entry.rank ++ ": " ++ entry.name, "All",
        some "Global", entry.commitments, some "2025 YTD", now⟩)
    afterMetrics

/-- Whether a character list starts with a pattern. -/
def charsStartWith : List Char → List Char → Bool
  | _, [] => true
  | [], _ :: _ => false
  | c :: cs, p :: ps => c == p && charsStartWith cs ps

/-- Whether a pattern occurs as a contiguous run inside a character list. -/
def charsContain : List Char → List Char → Bool
  | [], pat => pat.isEmpty
  | s@(_ :: rest), pat => charsStartWith s pat || charsContain rest pat

/-- JS `/lit/.test(s)` for a literal pattern: substring containment. -/
def strContains (s pat : String) : Bool :=
  charsContain s.toList pat.toList

/-- JS `/p1.*p2/.test(s)`: an occurrence of `p1` followed, at or after its end, by an
occurrence of `p2`. Testing the remainder after the first occurrence of `p1` is
sufficient, since later remainders are suffixes of it. -/
def charsContainSeq : List Char → List Char → List Char → Bool
  | [], p1, p2 => p1.isEmpty && p2.isEmpty
  | s@(_ :: rest), p1, p2 =>
    if charsStartWith s p1 then charsContain (s.drop p1.length) p2
    else charsContainSeq rest p1 p2

def strContainsSeq (s pat1 pat2 : String) : Bool :=
  charsContainSeq s.toList pat1.toList pat2.toList

/-- fetchPortfolio.ts `mapBucket`: lowercases the row's `type`/`Category` field and
tests a fixed sequence of patterns; every regular expression in the source is an
alternation of literal substrings except `/private.*equity/`. -/
def mapBucket (ty : String) : String :=
  let t := ty.toLower
  if strContains t "stock" || strContains t "equity" || strContains t "eafe"
      || strContains t "em" || strContains t "us" then "Liquid – Equities"
  else if strContains t "bond" || strContains t "fixed" || strContains t "ig"
      || strContains t "hy" || strContains t "em debt" then "Liquid – Fixed Income"
  else if strContains t "commodity" || strContains t "gold" || strContains t "oil" then
    "Liquid – Commodities"
  else if strContains t "crypto" || strContains t "bitcoin" || strContains t "ethereum" then
    "Liquid – Crypto"
  else if strContains t "cash" || strContains t "money market" then "Liquid – Cash"
  else if strContainsSeq t "private" "equity" then "Illiquid – Private Equity"
  else if strContains t "real assets" || strContains t "real estate" then
    "Illiquid – Private Real Assets"
  else if strContains t "credit" then "Illiquid – Private Credit"
  else if strContains t "infrastructure" then "Illiquid – Infrastructure"
  else if strContains t "co-invest" then "Illiquid – Co-Invests"
  else "Other"

/-- One parsed row of the external portfolio source (Addepar response row or Excel
sheet row — both branches of fetchPortfolio.ts build the same record shape from it);
the `Number(x) || 0` coercions are treated as already applied. -/
structure SourceRow where
  name : String
  rowType : String
  market_value : ℚ
  ytd_dollar : ℚ
  ytd_percent : ℚ
  irr : Option ℚ
  tvpi : Option ℚ
  nav_percent : Option ℚ
  nav_target : Option ℚ
deriving DecidableEq, Repr

/-- The record literal fetchPortfolio.ts builds for one source row: a fresh uuid, the
row's payload, the bucket from mapBucket, and a timestamp from a Date call made
inside the per-row loop. The source omits asset_class (modelled as NULL). -/
def portfolioRecord (row : SourceRow) (uuid : String) (t : Nat) : PositionRow :=
  { id := uuid, name := row.name, asset_class := none,
    market_value := row.market_value, ytd_dollar := some row.ytd_dollar,
    ytd_percent := some row.ytd_percent, irr := row.irr, tvpi := row.tvpi,
    nav_percent := row.nav_percent, nav_target := row.nav_target,
    bucket := mapBucket row.rowType, timestamp := t }

/-- fetchPortfolio.ts row loop: for the i-th source row, the i-th uuid call and the
i-th `new Date().toISOString()` call supply id and timestamp — one Date call per
row, not one per run — and the record is upserted. -/
def fetchPortfolioAux (uuid : Nat → String) (times : Nat → Nat) :
    List SourceRow → Nat → List PositionRow → List PositionRow
  | [], _, db => db
  | row :: rest, i, db =>
    fetchPortfolioAux uuid times rest (i + 1)
      (insertPosition db (portfolioRecord row (uuid i) (times i)))

/-- fetchPortfolio.ts: runs the row loop over the parsed source rows. -/
def fetchPortfolio (rows : List SourceRow) (uuid : Nat → String) (times : Nat → Nat)
    (db : List PositionRow) : List PositionRow :=
  fetchPortfolioAux uuid times rows 0 db

/-! ## C4 -/

/-- Rows of a fold of per-record inserts either pre-existed or satisfy a property
guaranteed by each single insert. -/
theorem foldl_mem_or {α β : Type} {P : α → Prop} (f : List α → β → List α) :
    ∀ (ps : List β), (∀ (t : List α), ∀ b ∈ ps, ∀ r ∈ f t b, r ∈ t ∨ P r) →
      ∀ (tbl : List α), ∀ r ∈ ps.foldl f tbl, r ∈ tbl ∨ P r := by
  intro ps
  induction ps with
  | nil => intro _ tbl r hr; exact Or.inl hr
  | cons p rest ih =>
    intro hf tbl r hr
    rcases ih (fun t b hb => hf t b (List.mem_cons_of_mem _ hb)) (f tbl p) r hr with h | h
    · rcases hf tbl p (List.mem_cons_self _ _) r h with h2 | h2
      · exact Or.inl h2
      · exact Or.inr h2
    · exact Or.inr h

/-- A member of the upserted table pre-existed or is the upserted record. -/
theorem mem_insertPosition {db : List PositionRow} {rec r : PositionRow}
    (h : r ∈ insertPosition db rec) : r ∈ db ∨ r = rec := by
  rw [insertPosition] at h
  split at h
  · simp only [List.mem_map] at h
    obtain ⟨q, hq, hqe⟩ := h
    by_cases hid : q.id = rec.id
    · rw [if_pos (by simp [hid])] at hqe
      exact Or.inr hqe.symm
    · rw [if_neg (by simp [hid])] at hqe
      subst hqe
      exact Or.inl hq
  · rcases List.mem_append.mp h with h | h
    · exact Or.inl h
    · simp only [List.mem_singleton] at h
      exact Or.inr h

/-- Any row produced by the fetchPortfolio loop pre-existed or is the j-th record,
carrying the j-th uuid and the j-th Date value. -/
theorem fetchPortfolioAux_mem_or (uuid : Nat → String) (times : Nat → Nat) :
    ∀ (rows : List SourceRow) (i : Nat) (db : List PositionRow),
      ∀ r ∈ fetchPortfolioAux uuid times rows i db,
        r ∈ db ∨ ∃ j, j < rows.length ∧ r.id = uuid (i + j) ∧ r.timestamp = times (i + j) := by
  intro rows
  induction rows with
  | nil => intro i db r hr; exact Or.inl hr
  | cons row rest ih =>
    intro i db r hr
    rw [fetchPortfolioAux] at hr
    rcases ih (i + 1) _ r hr with h | ⟨j, hj, hid, hts⟩
    · rcases mem_insertPosition h with h2 | h2
      · exact Or.inl h2
      · subst h2
        exact Or.inr ⟨0, by simp, by simp [portfolioRecord], by simp [portfolioRecord]⟩
    · refine Or.inr ⟨j + 1, by simpa using Nat.succ_lt_succ hj, ?_, ?_⟩
      · rwa [show i + (j + 1) = i + 1 + j by omega]
      · rwa [show i + (j + 1) = i + 1 + j by omega]

/-- C4 counterexample: a fetchPortfolio run over two source rows, with a clock that
advances between the two per-row Date calls, writes two records with timestamps 0
and 1 — the records of one run do not share a single timestamp captured at the
start of the run. -/
theorem fetchPortfolio_mixed_timestamps :
    (fetchPortfolio
        [⟨"A", "stock", 1, 0, 0, none, none, none, none⟩,
         ⟨"B", "bond", 1, 0, 0, none, none, none, none⟩]
        (fun i => toString i) (fun i => i) []).map (fun p => p.timestamp) = [0, 1] := by
  rfl

/-- C4 amended: fetchMarkets, fetchEconomic and fetchPrivateEquity capture the clock
once at the start of the run, so every record they write carries that single
timestamp; fetchPortfolio instead makes a fresh Date call for every record, so its
i-th record carries the i-th clock value and the records of one run need not share a
timestamp. -/
theorem fetchers_single_batch_timestamp :
    (∀ (times : Nat → Nat) (db : List MarketRow), ∀ r ∈ fetchMarkets times db,
      r ∈ db ∨ r.timestamp = times 0)
    ∧ (∀ (times : Nat → Nat) (db : List EconRow), ∀ r ∈ fetchEconomic times db,
      r ∈ db ∨ r.timestamp = times 0)
    ∧ (∀ (times : Nat → Nat) (db : List PERow), ∀ r ∈ fetchPrivateEquity times db,
      r ∈ db ∨ r.timestamp = times 0)
    ∧ (∀ (rows : List SourceRow) (uuid : Nat → String) (times : Nat → Nat)
        (db : List PositionRow), ∀ r ∈ fetchPortfolio rows uuid times db,
      r ∈ db ∨ ∃ i, i < rows.length ∧ r.id = uuid i ∧ r.timestamp = times i) := by
  refine ⟨?_, ?_, ?_, ?_⟩
  · intro times db r hr
    simp only [fetchMarkets] at hr
    have hf : ∀ (t : List MarketRow), ∀ b ∈ marketsSampleData,
        ∀ x ∈ insertMarketQuote t ⟨b.category, b.symbol, b.name, b.value, times 0⟩,
          x ∈ t ∨ x.timestamp = times 0 := by
      intro t b _ x hx
      simp only [insertMarketQuote, List.mem_append, List.mem_singleton] at hx
      rcases hx with h | h
      · exact Or.inl h
      · subst h; exact Or.inr rfl
    exact foldl_mem_or _ marketsSampleData hf db r hr
  · intro times db r hr
    simp only [fetchEconomic] at hr
    have hf : ∀ (t : List EconRow), ∀ b ∈ econSampleData,
        ∀ x ∈ insertEconomicRelease t
          ⟨b.indicator, b.country, b.value, b.release_date, some b.period,
            b.surprise, times 0⟩,
          x ∈ t ∨ x.timestamp = times 0 := by
      intro t b _ x hx
      simp only [insertEconomicRelease, List.mem_append, List.mem_singleton] at hx
      rcases hx with h | h
      · exact Or.inl h
      · subst h; exact Or.inr rfl
    exact foldl_mem_or _ econSampleData hf db r hr
  · intro times db r hr
    simp only [fetchPrivateEquity] at hr
    have hseq : ∀ (ps : List PERow), (∀ c ∈ ps, c.timestamp = times 0) →
        ∀ (t : List PERow), ∀ y ∈ ps.foldl insertPEMetric t,
          y ∈ t ∨ y.timestamp = times 0 := by
      intro ps hps t y hy
      refine foldl_mem_or (P := fun x : PERow => x.timestamp = times 0)
        insertPEMetric ps ?_ t y hy
      intro t2 c hc z hz
      simp only [insertPEMetric, List.mem_append, List.mem_singleton] at hz
      rcases hz with h | h
      · exact Or.inl h
      · exact Or.inr (h ▸ hps c hc)
    have hfL : ∀ (t : List PERow), ∀ b ∈ peLeagueTable,
        ∀ x ∈ insertPEMetric t
          ⟨"League Table Rank " ++ toString b.rank ++ ": " ++ b.name, "All",
            some "Global", b.commitments, some "2025 YTD", times 0⟩,
          x ∈ t ∨ x.timestamp = times 0 := by
      intro t b _ x hx
      simp only [insertPEMetric, List.mem_append, List.mem_singleton] at hx
      rcases hx with h | h
      · exact Or.inl h
      · subst h; exact Or.inr rfl
    have hfM : ∀ (t : List PERow), ∀ b ∈ peSampleMetrics,
        ∀ x ∈ ([⟨"Capital Raised", b.strategy, some "Global", b.capitalRaised,
              some "Q2 2025", times 0⟩,
            ⟨"Dry Powder", b.strategy, some "Global", b.dryPowder, some "Q2 2025",
              times 0⟩,
            ⟨"Deal Count", b.strategy, some "Global", b.dealCount, some "Q2 2025",
              times 0⟩,
            ⟨"Median Purchase Price Multiple", b.strategy, some "North America",
              b.medianPPM_NA, some "Q2 2025", times 0⟩,
            ⟨"Median Purchase Price Multiple", b.strategy, some "Europe",
              b.medianPPM_EU, some "Q2 2025", times 0⟩,
            ⟨"Leverage Multiple", b.strategy, some "North America",
              b.leverageMultiple_NA, some "Q2 2025", times 0⟩,
            ⟨"Leverage Multiple", b.strategy, some "Europe",
              b.leverageMultiple_EU, some "Q2 2025", times 0⟩,
            ⟨"ILPA Score", b.strategy, some "Global", b.ilpaScore, some "2025",
              times 0⟩] : List PERow).foldl insertPEMetric t,
          x ∈ t ∨ x.timestamp = times 0 := by
      intro t b _ x hx
      refine hseq _ ?_ t x hx
      intro c hc
      simp only [List.mem_cons, List.not_mem_nil, or_false] at hc
      rcases hc with rfl | rfl | rfl | rfl | rfl | rfl | rfl | rfl <;> rfl
    rcases foldl_mem_or _ peLeagueTable hfL _ r hr with h | h
    · exact foldl_mem_or _ peSampleMetrics hfM db r h
    · exact Or.inr h
  · intro rows uuid times db r hr
    simp only [fetchPortfolio] at hr
    rcases fetchPortfolioAux_mem_or uuid times rows 0 db r hr with h | ⟨j, hj, hid, hts⟩
    · exact Or.inl h
    · exact Or.inr ⟨j, hj, by simpa using hid, by simpa using hts⟩

/-- Witness for C4 amended: the SPX record written by a fetchMarkets run on the empty
table carries the clock value captured at the start of the run, and the second
record of a two-row fetchPortfolio run carries the second clock value. -/
theorem fetchers_single_batch_timestamp_witness :
    ((⟨"equities", "SPX", "S&P 500", 4500.25, 7⟩ : MarketRow) ∈ ([] : List MarketRow)
      ∨ (⟨"equities", "SPX", "S&P 500", 4500.25, 7⟩ : MarketRow).timestamp = 7)
    ∧ ((portfolioRecord ⟨"B", "bond", 1, 0, 0, none, none, none, none⟩ "u1" 1
          ∈ ([] : List PositionRow))
      ∨ ∃ i, i < 2
          ∧ (portfolioRecord ⟨"B", "bond", 1, 0, 0, none, none, none, none⟩ "u1" 1).id
              = (fun i : Nat => if i == 0 then "u0" else "u1") i
          ∧ (portfolioRecord ⟨"B", "bond", 1, 0, 0, none, none, none, none⟩ "u1" 1).timestamp
              = (fun i : Nat => i) i) := by
  constructor
  · exact fetchers_single_batch_timestamp.1 (fun _ => 7) []
      ⟨"equities", "SPX", "S&P 500", 4500.25, 7⟩
      (by simp [fetchMarkets, marketsSampleData, insertMarketQuote])
  · exact fetchers_single_batch_timestamp.2.2.2
      [⟨"A", "stock", 1, 0, 0, none, none, none, none⟩,
       ⟨"B", "bond", 1, 0, 0, none, none, none, none⟩]
      (fun i : Nat => if i == 0 then "u0" else "u1") (fun i => i) []
      (portfolioRecord ⟨"B", "bond", 1, 0, 0, none, none, none, none⟩ "u1" 1)
      (by simp [fetchPortfolio, fetchPortfolioAux, insertPosition, portfolioRecord])

/-! ## Commentary (backend/commentary.ts) -/

/-- JS `Number.prototype.toFixed(2)`: round to the nearest hundredth (larger
candidate on ties) and render with exactly two decimals. Only used in summary
sentences of the non-empty branch. -/
def toFixed2 (q : ℚ) : String :=
  let n : ℤ := Int.floor (q * 100 + 1 / 2)
  (if n < 0 then "-" else "")
    ++ toString (n.natAbs / 100) ++ "."
    ++ (if n.natAbs % 100 < 10 then "0" else "") ++ toString (n.natAbs % 100)

/-- Rendering of a JS number interpolated into a template literal; an
approximation, never relied upon by a verified statement. -/
def jsNumToString (q : ℚ) : String :=
  if q.den = 1 then toString q.num else toString q

/-- The return shape of generateCommentary. -/
structure Commentary where
  summary : String
  risk : String
  opportunity : String
  changes : List String
deriving DecidableEq, Repr

/-- backend/commentary.ts `generateCommentary`: reads the markets snapshot; when it
is empty returns the explicit insufficient-data object; otherwise groups the
snapshot by category, builds one average-based sentence per non-empty category,
fixed risk/opportunity strings, and the first five "name: latest value" strings. -/
def generateCommentary (db : Db) : Commentary :=
  let latest := getLatestMarketQuotes db.markets none
  if latest.isEmpty then
    { summary := "No market data available to generate commentary.",
      risk := "Insufficient data.",
      opportunity := "Insufficient data.",
      changes := [] }
  else
    let equities := latest.filter (fun l => l.category == "equities")
    let rates := latest.filter (fun l => l.category == "rates")
    let commodities := latest.filter (fun l => l.category == "commodities")
    let fx := latest.filter (fun l => l.category == "fx")
    let crypto := latest.filter (fun l => l.category == "crypto")
    let summaryParts : List String :=
      (if equities.length > 0 then
        ["Global equities trade around "
          ++ toFixed2 ((equities.foldl (fun s m => s + m.value) 0) / (equities.length : ℚ))
          ++ ", reflecting the latest index levels."]
      else [])
      ++ (if rates.length > 0 then
        ["Government bond yields average "
          ++ toFixed2 ((rates.foldl (fun s m => s + m.value) 0) / (rates.length : ℚ))
          ++ "%, signalling the market’s rate expectations."]
      else [])
      ++ (if commodities.length > 0 then
        ["Major commodities hover near "
          ++ toFixed2 ((commodities.foldl (fun s m => s + m.value) 0)
              / (commodities.length : ℚ))
          ++ ", amid supply‑demand dynamics."]
      else [])
      ++ (if fx.length > 0 then
        ["G10 FX crosses show muted moves against the USD."]
      else [])
      ++ (if crypto.length > 0 then
        ["Crypto assets remain volatile with bitcoin and ether leading."]
      else [])
    { summary := String.intercalate " " summaryParts,
      risk := "Monitor potential volatility from upcoming economic data releases.",
      opportunity := "Look for dislocations in private markets as fundraising conditions evolve.",
      changes := (latest.map (fun l => l.name ++ ": latest value " ++ jsNumToString l.value)).take 5 }

/-! ## C9 -/

/-- C9: whenever the markets snapshot is empty, generateCommentary returns exactly
the explicit insufficient-data object — summary, risk, opportunity and the empty
changes list — rather than failing or producing zero-valued output. -/
theorem commentary_insufficient_data_on_empty_snapshot :
    ∀ db : Db, getLatestMarketQuotes db.markets none = [] →
      generateCommentary db =
        { summary := "No market data available to generate commentary.",
          risk := "Insufficient data.",
          opportunity := "Insufficient data.",
          changes := [] } := by
  intro db h
  rw [generateCommentary]
  rw [h]
  rfl

/-- Witness for C9: on the empty database the markets snapshot is empty and
generateCommentary returns the insufficient-data object. -/
theorem commentary_insufficient_data_on_empty_snapshot_witness :
    getLatestMarketQuotes (([] : List MarketRow)) none = []
    ∧ generateCommentary ⟨[], [], [], [], []⟩ =
        { summary := "No market data available to generate commentary.",
          risk := "Insufficient data.",
          opportunity := "Insufficient data.",
          changes := [] } :=
  ⟨rfl, commentary_insufficient_data_on_empty_snapshot ⟨[], [], [], [], []⟩ rfl⟩
